import Mathlib

/-!
# Verification of the FOTA firmware server

A shallow embedding, in Lean 4, of the firmware-over-the-air distribution
service (upload tool `upload_firmware.py`, serving process `main.py`, and the
older serving variant `server.py`), together with theorems settling the
specification claims about the checksum algorithm, version ordering, catalog
invariants, ingestion atomicity and the HTTP request handling.

Bytes are modelled as natural numbers (the source reads files as byte strings,
each byte `0..255`), machine words as natural numbers reduced modulo `2^32`
exactly where the source masks with `0xFFFFFFFF`, and fallible operations as
`Option`-valued functions.
-/

set_option autoImplicit false

namespace Fota

/-! ## ChecksumEngine: `calculate_stm32_crc32` (upload_firmware.py lines 14-68)

The source computes the STM32 hardware CRC: polynomial `0x04C11DB7`, initial
register `0xFFFFFFFF`, input consumed as successive 32-bit little-endian
words, a trailing partial word zero-padded, no final inversion, rendered via
`'%08x' % crc`. The file is read in chunks (`chunk_size = 256` in the source);
each chunk is consumed word by word and any 1-3 leftover bytes of a chunk are
zero-padded to a word. `crcChunksWith` keeps the read size as a parameter so
that the chunk-size-invariance claims can be stated; the source's function is
`calculate_stm32_crc32 = crcChunksWith 256` rendered in hex. -/

/-- One shift step of the CRC register: `crc = ((crc << 1) ^ 0x04C11DB7) & 0xFFFFFFFF`
when the top bit is set, else `crc = (crc << 1) & 0xFFFFFFFF`. -/
def crcShift (crc : Nat) : Nat :=
  if crc &&& 0x80000000 ≠ 0 then ((crc <<< 1) ^^^ 0x04C11DB7) &&& 0xFFFFFFFF
  else (crc <<< 1) &&& 0xFFFFFFFF

/-- `n` iterations of `crcShift` (the source's `for _ in range(32)` loop). -/
def crcRounds : Nat → Nat → Nat
  | 0, crc => crc
  | n + 1, crc => crcRounds n (crcShift crc)

/-- Absorb one 32-bit word: `crc ^= word` followed by 32 shift steps. -/
def crcWordStep (crc word : Nat) : Nat :=
  crcRounds 32 (crc ^^^ word)

/-- `struct.unpack('<I', bytes)`: little-endian byte list to an integer
(first byte is least significant). -/
def leWord : List Nat → Nat
  | [] => 0
  | b :: rest => b + 256 * leWord rest

/-- The per-chunk word loop of the source: consume 4 bytes at a time
(`while i + 3 < len(chunk)`), then zero-pad any remaining 1-3 bytes to a full
word (`remaining + b'\x00' * (4 - len(remaining))`) and absorb it too. The
three remainder shapes are written out explicitly. -/
def processWords (crc : Nat) : List Nat → Nat
  | a :: b :: c :: d :: rest => processWords (crcWordStep crc (leWord [a, b, c, d])) rest
  | [] => crc
  | [a] => crcWordStep crc (leWord ([a] ++ List.replicate 3 0))
  | [a, b] => crcWordStep crc (leWord ([a, b] ++ List.replicate 2 0))
  | [a, b, c] => crcWordStep crc (leWord ([a, b, c] ++ List.replicate 1 0))

/-- The body of the read loop, with an explicit fuel bound so that the
recursion is structural (each pass consumes `cs ≥ 1` bytes, so
`data.length + 1` fuel always suffices; with `cs = 0`, `read` returns an
empty chunk at once and the loop exits immediately). -/
def crcChunksGo (cs : Nat) : Nat → Nat → List Nat → Nat
  | 0, crc, _ => crc
  | fuel + 1, crc, data =>
    if cs = 0 ∨ data = [] then crc
    else crcChunksGo cs fuel (processWords crc (data.take cs)) (data.drop cs)

/-- The read loop of the source: `f.read(cs)` until the file is exhausted,
feeding each chunk to the word loop. -/
def crcChunksWith (cs crc : Nat) (data : List Nat) : Nat :=
  crcChunksGo cs (data.length + 1) crc data

/-- One lowercase hexadecimal digit. -/
def hexDigit (n : Nat) : Char :=
  if n < 10 then Char.ofNat (48 + n) else Char.ofNat (87 + n)

/-- `'%08x' % n`: eight lowercase hex digits, most significant first. -/
def toHex8 (n : Nat) : String :=
  String.mk ((List.range 8).map (fun i => hexDigit ((n >>> (28 - 4 * i)) &&& 0xF)))

/-- `calculate_stm32_crc32` of the source, over the bytes of the file:
register initialised to `0xFFFFFFFF`, the chunked word loop with the source's
`chunk_size = 256`, and the register rendered as `'%08x'`. -/
def calculate_stm32_crc32 (data : List Nat) : String :=
  toHex8 (crcChunksWith 256 0xFFFFFFFF data)

/-! Spec-side model of the checksum, for the refinement claim. -/

/-- Modelled from the spec: the byte stream cut into successive 32-bit
little-endian words, with a final partial word of 1-3 leftover bytes
zero-padded on its high-order bytes to a full little-endian word. -/
def specWords : List Nat → List Nat
  | [] => []
  | a :: b :: c :: d :: rest => leWord [a, b, c, d] :: specWords rest
  | [a] => [leWord ([a] ++ List.replicate 3 0)]
  | [a, b] => [leWord ([a, b] ++ List.replicate 2 0)]
  | [a, b, c] => [leWord ([a, b, c] ++ List.replicate 1 0)]

/-- Modelled from the spec: the digest of the hardware CRC algorithm —
register `0xFFFFFFFF`, each word XOR-ed in followed by 32
shift-left-and-conditionally-XOR-`0x04C11DB7` steps, no final inversion,
rendered as an 8-hex-digit lowercase string. -/
def specCrcDigest (data : List Nat) : String :=
  toHex8 ((specWords data).foldl crcWordStep 0xFFFFFFFF)

/-! ## Python string primitives

The sources manipulate text with `split`, `strip`, `lower`, `startswith` and
`int(...)`. These are modelled by structurally recursive functions over
`List Char` (so that concrete runs reduce inside the kernel), with `String`
kept at the interfaces. -/

/-- The whitespace of Python's `str.split()` / `str.strip()`. -/
def isPySpace (c : Char) : Bool :=
  c = ' ' || c = '\t' || c = '\n' || c = '\r' || c = '\x0b' || c = '\x0c'

/-- Split at every character satisfying `p`, keeping empty pieces
(like Python's `split` with an explicit separator). -/
def splitIf (p : Char → Bool) : List Char → List (List Char)
  | [] => [[]]
  | x :: xs =>
    if p x then [] :: splitIf p xs
    else
      match splitIf p xs with
      | [] => [[x]]
      | g :: gs => (x :: g) :: gs

/-- Python's `s.split(c)` for a one-character separator. -/
def splitOnCh (c : Char) (l : List Char) : List (List Char) :=
  splitIf (· == c) l

/-- Python's `s.split('\r\n')` (the request framing). -/
def splitCrlf : List Char → List (List Char)
  | [] => [[]]
  | '\r' :: '\n' :: xs => [] :: splitCrlf xs
  | x :: xs =>
    match splitCrlf xs with
    | [] => [[x]]
    | g :: gs => (x :: g) :: gs

/-- Python's `s.split()`: split on whitespace runs, no empty tokens. -/
def splitWsL (l : List Char) : List (List Char) :=
  (splitIf isPySpace l).filter (fun t => !t.isEmpty)

/-- `int(x)` on a field expected to be a decimal numeral; `none` models the
`ValueError` on anything else. (Python's `int` additionally tolerates
surrounding whitespace and a sign; the claims only quantify over plain
numerals, where the two agree.) -/
def digitsToNat? (l : List Char) : Option Nat :=
  if !l.isEmpty && l.all Char.isDigit then
    some (l.foldl (fun n c => n * 10 + (c.toNat - 48)) 0)
  else none

/-- Python's `s.strip()`. -/
def trimChars (l : List Char) : List Char :=
  ((l.dropWhile isPySpace).reverse.dropWhile isPySpace).reverse

/-- ASCII lower-casing, as `s.lower()` acts on the header names here. -/
def charLower (c : Char) : Char :=
  if 'A' ≤ c ∧ c ≤ 'Z' then Char.ofNat (c.toNat + 32) else c

def lowerChars (l : List Char) : List Char :=
  l.map charLower

def containsCh (c : Char) (l : List Char) : Bool :=
  l.any (· == c)

/-- `s.split(c, 1)`: the part before the first occurrence of `c` and the
part after it. -/
def splitFirstCh (c : Char) (l : List Char) : List Char × List Char :=
  (l.takeWhile (· != c), (l.dropWhile (· != c)).drop 1)

/-- Python's `s.startswith(pre)`. -/
def strStartsWith (s pre : String) : Bool :=
  pre.data.isPrefixOf s.data

/-- `s[n:]` for a character count. -/
def strDrop (s : String) (n : Nat) : String :=
  String.mk (s.data.drop n)

/-! ## VersionOrdering: `compare_versions` (upload_firmware.py lines 73-78)

The source parses both dot-separated strings into integer lists (`int(x)`
raising on a malformed component, modelled by `Option`), right-pads the
shorter list with `0` until the lengths agree, and returns
`(v1 > v2) - (v1 < v2)` using Python's lexicographic list comparison. -/

/-- Python's `<` on integer lists: lexicographic, a strict prefix is smaller. -/
def pyListLt : List Nat → List Nat → Bool
  | [], [] => false
  | [], _ :: _ => true
  | _ :: _, [] => false
  | a :: as, b :: bs => a < b || (a == b && pyListLt as bs)

/-- `[int(x) for x in s.split(".")]`; `none` when some component is not a
decimal numeral (Python raises `ValueError`). -/
def parseComponents (s : String) : Option (List Nat) :=
  (splitOnCh '.' s.data).mapM digitsToNat?

/-- The while-loops of the source: append `0` to the shorter list until the
lengths agree. -/
def padZeros (v : List Nat) (n : Nat) : List Nat :=
  v ++ List.replicate (n - v.length) 0

/-- `(v1 > v2) - (v1 < v2)` after zero-padding, as in the source. -/
def compareLists (v1 v2 : List Nat) : Int :=
  let n := max v1.length v2.length
  let a := padZeros v1 n
  let b := padZeros v2 n
  (if pyListLt b a then 1 else 0) - (if pyListLt a b then 1 else 0)

/-- `compare_versions` of the source; `none` models the `ValueError` raised
by `int(x)` on a malformed component. -/
def compare_versions (version1 version2 : String) : Option Int := do
  let v1 ← parseComponents version1
  let v2 ← parseComponents version2
  pure (compareLists v1 v2)

/-- A version string is well-formed when every dot-separated component is a
decimal numeral. -/
def WFver (s : String) : Prop := (parseComponents s).isSome = true

instance (s : String) : Decidable (WFver s) := by unfold WFver; infer_instance

def allZero (l : List Nat) : Bool :=
  l.all (· == 0)

/-- Recursive presentation of the zero-padded comparison, used to prove
transitivity and the equivalence with the source's padding loop. -/
def listCmp : List Nat → List Nat → Int
  | [], b => if allZero b then 0 else -1
  | a :: as, [] => if allZero (a :: as) then 0 else 1
  | a :: as, b :: bs => if a < b then -1 else if b < a then 1 else listCmp as bs

/-- Modelled from the spec: lexicographic comparison of two equal-length
integer-component sequences. -/
def lexCmp : List Nat → List Nat → Int
  | a :: as, b :: bs => if a < b then -1 else if b < a then 1 else lexCmp as bs
  | _, _ => 0

/-- Modelled from the spec: right-pad the shorter component sequence with
zero components, then compare the integer sequences lexicographically. -/
def specVersionCompare (v1 v2 : List Nat) : Int :=
  let n := max v1.length v2.length
  lexCmp (v1 ++ List.replicate (n - v1.length) 0) (v2 ++ List.replicate (n - v2.length) 0)

/-! ## MetadataStore: catalog entries and the upsert of
`upload_firmware.py` lines 141-167 -/

/-- A catalog entry (`upload_firmware.py` lines 142-150). `upload_date` is
`time.time()`, modelled as a natural number. -/
structure Entry where
  version : String
  device_type : String
  filename : String
  size : Nat
  checksum : String
  description : String
  upload_date : Nat
deriving DecidableEq, Repr

/-- The persisted catalog document: top-level keys `firmware_entries` and
`latest_version`. -/
structure Catalog where
  firmware_entries : List Entry
  latest_version : String
deriving DecidableEq, Repr

/-- The catalog created when the metadata document is missing or corrupt. -/
def emptyCatalog : Catalog := { firmware_entries := [], latest_version := "0.0.0" }

/-- The entry-list update of `upload_firmware` (lines 152-161): replace the
first entry with the same `(device_type, version)` pair, appending a new
entry when none matches. -/
def upsertEntries : List Entry → Entry → List Entry
  | [], entry => [entry]
  | e :: rest, entry =>
    if e.device_type = entry.device_type ∧ e.version = entry.version then entry :: rest
    else e :: upsertEntries rest entry

/-- At most one entry per `(device_type, version)` pair. -/
def UniqueKeys (l : List Entry) : Prop :=
  l.Pairwise (fun a b => ¬(a.device_type = b.device_type ∧ a.version = b.version))

instance (l : List Entry) : Decidable (UniqueKeys l) := by
  unfold UniqueKeys
  infer_instance

/-- The entries of `l` carrying the `(device_type, version)` pair of `e`. -/
def entriesForKey (l : List Entry) (e : Entry) : List Entry :=
  l.filter (fun x => decide (x.device_type = e.device_type ∧ x.version = e.version))

/-- The catalog mutation of one successful ingestion (`upload_firmware.py`
lines 152-167): the upsert followed by
`if compare_versions(version, latest_version) > 0: latest_version = version`;
`none` models the uncaught `ValueError` from a malformed version. -/
def ingestMeta (c : Catalog) (e : Entry) : Option Catalog :=
  match compare_versions e.version c.latest_version with
  | none => none
  | some k =>
    some { firmware_entries := upsertEntries c.firmware_entries e,
           latest_version := if 0 < k then e.version else c.latest_version }

/-- A sequence of ingestions, stopping at the first failure. -/
def foldIngest (c : Catalog) : List Entry → Option Catalog
  | [] => some c
  | e :: rest =>
    match ingestMeta c e with
    | none => none
    | some c' => foldIngest c' rest

/-- `latest ≥ v` under the source's version ordering. -/
def versionGE (latest v : String) : Prop :=
  ∃ k, compare_versions latest v = some k ∧ 0 ≤ k

/-! ## FirmwareIngestion: `upload_firmware` (upload_firmware.py lines 83-179)

The file system is a map from path to byte list (newest write first), the
persisted metadata document is `MetaDoc` (missing file / unparseable JSON /
well-formed document), and the fallible I/O steps carry explicit failure
oracles: `copyInterrupt = some k` means the chunked copy raised after `k`
bytes were written, `crcFail` a read error inside `calculate_stm32_crc32`
(which then returns `None`), `saveFail` a failure while re-writing the
metadata document (`open(.., 'w')` has already truncated it, so the document
is left corrupt). `upserts` counts committed catalog upserts. -/

/-- The persisted metadata document as seen through `open` + `json.load`. -/
inductive MetaDoc where
  | missing
  | corrupt
  | valid (cat : Catalog)
deriving DecidableEq, Repr

structure IngestWorld where
  files : List (String × List Nat)
  meta : MetaDoc
deriving Repr

structure IngestOutcome where
  ok : Bool
  files : List (String × List Nat)
  meta : MetaDoc
  upserts : Nat
deriving Repr

/-- Writing a file: later writes shadow earlier ones under `List.lookup`. -/
def fsWrite (fs : List (String × List Nat)) (name : String) (bytes : List Nat) :
    List (String × List Nat) :=
  (name, bytes) :: fs

/-- upload_firmware.py lines 93-99: `os.stat(METADATA_FILE)` failing makes the
tool write a default `{"firmware_entries": [], "latest_version": "0.0.0"}`. -/
def ensureMetadataFile : MetaDoc → MetaDoc
  | .missing => .valid emptyCatalog
  | d => d

/-- upload_firmware.py lines 134-139: `json.load` under a bare `except`
falling back to the default document. -/
def loadMetadata : MetaDoc → Catalog
  | .valid c => c
  | _ => emptyCatalog

/-- `upload_firmware` of the source. The returned `Bool` is the source's
return value (`False` also standing for the uncaught `ValueError` of a
malformed version string, which aborts the tool before the save). -/
def upload_firmware (w : IngestWorld)
    (firmware_file version device_type description : String) (now : Nat)
    (copyInterrupt : Option Nat) (crcFail saveFail : Bool) : IngestOutcome :=
  let meta0 := ensureMetadataFile w.meta
  let extension := String.mk ((splitOnCh '.' firmware_file.data).getLastD [])
  let base_filename := device_type ++ "-v" ++ version ++ "." ++ extension
  let dest_path := "/firmware/" ++ base_filename
  match w.files.lookup firmware_file with
  | none =>
      -- `open(firmware_file, 'rb')` raises before the destination is opened
      { ok := false, files := w.files, meta := meta0, upserts := 0 }
  | some srcBytes =>
    match copyInterrupt with
    | some k =>
        -- the copy loop raised part-way: a partial file is on disk, the
        -- function returns False without touching the catalog
        { ok := false, files := fsWrite w.files dest_path (srcBytes.take k),
          meta := meta0, upserts := 0 }
    | none =>
      let files1 := fsWrite w.files dest_path srcBytes
      if crcFail then
        { ok := false, files := files1, meta := meta0, upserts := 0 }
      else
        -- size and checksum are taken from the written copy at `dest_path`
        let file_size := srcBytes.length
        let checksum := calculate_stm32_crc32 srcBytes
        let metadata := loadMetadata meta0
        let entry : Entry :=
          { version := version, device_type := device_type,
            filename := base_filename, size := file_size, checksum := checksum,
            description := description, upload_date := now }
        match ingestMeta metadata entry with
        | none => { ok := false, files := files1, meta := meta0, upserts := 0 }
        | some newCat =>
          if saveFail then
            { ok := false, files := files1, meta := .corrupt, upserts := 0 }
          else
            { ok := true, files := files1, meta := .valid newCat, upserts := 1 }

/-! ## RequestRouter / ProtocolHandler

`parse_request`, `check_auth` and `handle_request` of `main.py`, and the
`server.py` variant where it differs. Requests are modelled as the received
text (`recv(1024).decode` boundary effects aside, both sources split the text
on `\r\n` and whitespace). Base64 decoding (`ubinascii.a2b_base64`) is
modelled for well-formed input, any other input mapping to `none` (the
source's `except: pass` then answers `False`). -/

/-- Value of one base64 alphabet character. -/
def b64val (c : Char) : Option Nat :=
  if 'A' ≤ c ∧ c ≤ 'Z' then some (c.toNat - 65)
  else if 'a' ≤ c ∧ c ≤ 'z' then some (c.toNat - 71)
  else if '0' ≤ c ∧ c ≤ '9' then some (c.toNat - 48 + 52)
  else if c = '+' then some 62
  else if c = '/' then some 63
  else none

/-- The sextet values of a base64 string, stopping at `=` padding. -/
def b64sextets : List Char → Option (List Nat)
  | [] => some []
  | '=' :: _ => some []
  | c :: cs =>
    match b64val c, b64sextets cs with
    | some v, some vs => some (v :: vs)
    | _, _ => none

/-- Repack 6-bit groups into bytes, dropping the trailing partial byte. -/
def sextetsToBytes : List Nat → Nat → Nat → List Nat
  | [], _, _ => []
  | v :: vs, buf, nbits =>
    let buf2 := buf * 64 + v
    let n2 := nbits + 6
    if 8 ≤ n2 then (buf2 >>> (n2 - 8)) :: sextetsToBytes vs (buf2 % 2 ^ (n2 - 8)) (n2 - 8)
    else sextetsToBytes vs buf2 n2

/-- `ubinascii.a2b_base64` on well-formed input. -/
def a2b_base64 (s : List Char) : Option (List Nat) :=
  (b64sextets s).map (fun vs => sextetsToBytes vs 0 0)

/-- `bytes.decode()` restricted to ASCII payloads; a non-ASCII byte yields
`none` (no such payload can equal the ASCII credentials anyway). -/
def decodeAscii (bs : List Nat) : Option String :=
  if bs.all (· < 128) then some (String.mk (bs.map Char.ofNat)) else none

/-- Python dict lookup over insertion-ordered pairs: the last binding wins. -/
def lookupLast (hs : List (String × String)) (k : String) : Option String :=
  hs.reverse.lookup k

def API_USERNAME : String := "admin"

def API_PASSWORD : String := "admin"

/-- `check_auth` of main.py (lines 92-103; server.py lines 168-181 is the
same check): a `Basic` authorization header whose base64 payload splits at
the first `:` into exactly the configured username and password. -/
def check_auth (headers : List (String × String)) : Bool :=
  match lookupLast headers "authorization" with
  | none => false
  | some auth =>
    if strStartsWith auth "Basic " then
      match a2b_base64 (auth.data.drop 6) with
      | none => false
      | some bs =>
        match decodeAscii bs with
        | none => false
        | some decoded =>
          if containsCh ':' decoded.data then
            String.mk (splitFirstCh ':' decoded.data).1 == API_USERNAME &&
              String.mk (splitFirstCh ':' decoded.data).2 == API_PASSWORD
          else false
    else false

/-- The header loop of `parse_request`: a line containing `:` contributes a
`key.strip().lower() / value.strip()` pair, any other line is skipped, and an
empty line ends the headers. -/
def parseHeaderLines : List (List Char) → List (String × String)
  | [] => []
  | line :: rest =>
    let this := if containsCh ':' line then
        [(String.mk (lowerChars (trimChars (splitFirstCh ':' line).1)),
          String.mk (trimChars (splitFirstCh ':' line).2))]
      else []
    if line.isEmpty then this else this ++ parseHeaderLines rest

/-- The query-parameter loop: split on `&`, keep `key=value` pairs. -/
def parseQueryString (qs : List Char) : List (String × String) :=
  (splitOnCh '&' qs).filterMap (fun p =>
    if containsCh '=' p then
      some (String.mk (splitFirstCh '=' p).1, String.mk (splitFirstCh '=' p).2)
    else none)

structure RequestData where
  method : String
  path : String
  headers : List (String × String)
  query : List (String × String)
deriving DecidableEq, Repr

/-- `parse_request` (main.py lines 62-89; server.py lines 132-165 differs only
in checking the blank-line break before the `:` test, which is equivalent):
`none` when the request line has fewer than three whitespace-separated
tokens. -/
def parse_request (request : String) : Option RequestData :=
  let lines := splitCrlf request.data
  let parts := splitWsL (lines.headD [])
  if parts.length < 3 then none
  else
    let method := String.mk (parts.getD 0 [])
    let rawPath := parts.getD 1 []
    let headers := parseHeaderLines lines.tail
    if containsCh '?' rawPath then
      some { method := method, path := String.mk (splitFirstCh '?' rawPath).1,
             headers := headers, query := parseQueryString (splitFirstCh '?' rawPath).2 }
    else
      some { method := method, path := String.mk rawPath, headers := headers, query := [] }

/-- An HTTP response: status code, headers, text body, and raw streamed bytes
(for downloads). Every request ends with the connection closed. -/
structure Response where
  status : Nat
  headers : List (String × String)
  body : String
  fileBytes : List Nat := []
deriving DecidableEq, Repr

/-- The serving process's view of durable state: the raw metadata document
(`none` = file missing), its JSON parse (`none` = missing or unparseable),
and the binary store. -/
structure ServerWorld where
  metaRaw : Option String
  metaParsed : Option Catalog
  files : List (String × List Nat)
deriving Repr

/-- JSON string escaping (quotes and backslashes; the catalog fields the
sources produce contain nothing else needing escapes). -/
def jsonEscapeChar (c : Char) : String :=
  if c = '"' then "\\\"" else if c = '\\' then "\\\\" else String.singleton c

def jstr (s : String) : String :=
  "\"" ++ String.join (s.data.map jsonEscapeChar) ++ "\""

/-- `json.dumps` of one entry, with Python's insertion order and default
`, ` / `: ` separators. (The server.py ingestion variant writes an `md5` key
here instead of `checksum`.) -/
def serializeEntry (e : Entry) : String :=
  "\x7b\"version\": " ++ jstr e.version ++
  ", \"device_type\": " ++ jstr e.device_type ++
  ", \"filename\": " ++ jstr e.filename ++
  ", \"size\": " ++ toString e.size ++
  ", \"checksum\": " ++ jstr e.checksum ++
  ", \"description\": " ++ jstr e.description ++
  ", \"upload_date\": " ++ toString e.upload_date ++ "\x7d"

/-- `json.dumps` of the catalog document. -/
def serializeCatalog (c : Catalog) : String :=
  "\x7b\"firmware_entries\": [" ++
  String.intercalate ", " (c.firmware_entries.map serializeEntry) ++
  "], \"latest_version\": " ++ jstr c.latest_version ++ "\x7d"

/-- The status page body built by main.py lines 133-145 (it appends a stray
`</body></html>` before the firmware list). -/
def statusPageBody (m : Catalog) : String :=
  "<html><body><h1>FOTA Server</h1>" ++
  "<p>Latest version: " ++ m.latest_version ++ "</p>" ++
  "<p>Available firmware: " ++ toString m.firmware_entries.length ++ "</p>" ++
  "</body></html>" ++
  "<h2>Available Firmware Files:</h2><ul>" ++
  String.join (m.firmware_entries.map (fun e =>
    "<li>" ++ e.device_type ++ " v" ++ e.version ++ " - " ++ e.description ++
    " (" ++ toString e.size ++ " bytes)</li>")) ++
  "</ul></body></html>"

/-- main.py's outer exception handler response (`"Internal error"`). -/
def internalError500 : Response :=
  { status := 500, headers := [("Content-Type", "text/plain")], body := "Internal error" }

/-- The 401 answer of the auth gate, with its challenge header. -/
def authRequired401 : Response :=
  { status := 401,
    headers := [("WWW-Authenticate", "Basic realm=\"FOTA Server\""),
                ("Content-Type", "text/plain")],
    body := "Authentication required" }

/-- The route handlers of main.py (lines 130-192), reached once the gate has
passed. A raised exception (missing/corrupt metadata where the handler
parses it) is caught by the outer handler, which answers 500. -/
def main_dispatch (w : ServerWorld) (path : String) : Response :=
  if path = "/" then
    match w.metaParsed with
    | none => internalError500
    | some m => { status := 200, headers := [("Content-Type", "text/html")],
                  body := statusPageBody m }
  else if path = "/api/firmware/list" then
    match w.metaParsed with
    | none => internalError500
    | some m => { status := 200, headers := [("Content-Type", "application/json")],
                  body := serializeCatalog m }
  else if path = "/firmware/metadata.json" then
    -- this route reads and serves the raw document, under its own
    -- try/except answering 500
    match w.metaRaw with
    | none => { status := 500, headers := [("Content-Type", "text/plain")],
                body := "Internal Server Error" }
    | some raw => { status := 200, headers := [("Content-Type", "application/json")],
                    body := raw }
  else if strStartsWith path "/download/" then
    let filename := strDrop path 10
    match w.files.lookup ("/firmware/" ++ filename) with
    | none => { status := 404, headers := [("Content-Type", "text/plain")],
                body := "File not found" }
    | some bytes =>
        { status := 200,
          headers := [("Content-Length", toString bytes.length),
                      ("Content-Type", "application/octet-stream")],
          body := "", fileBytes := bytes }
  else
    { status := 404, headers := [("Content-Type", "text/plain")],
      body := "Endpoint not found" }

/-- `handle_request` of main.py (lines 112-200): parse, answer a bare 404 to
a malformed request line, run the auth gate (downloads and the raw metadata
document exempt), then dispatch. -/
def main_handle_request (w : ServerWorld) (request : String) : Response :=
  match parse_request request with
  | none => { status := 404, headers := [], body := "" }
  | some r =>
    if !(strStartsWith r.path "/download/" || r.path == "/firmware/metadata.json")
        && !(check_auth r.headers) then
      authRequired401
    else
      main_dispatch w r.path

/-- `parse_version` of server.py (line 342): `tuple(map(int, split('.')))`,
compared with Python's tuple comparison (no zero padding). -/
def parse_version (s : String) : Option (List Nat) :=
  (splitOnCh '.' s.data).mapM digitsToNat?

/-- The scan of server.py lines 250-257: track the best version (starting
from `"0.0.0"`) and entry over the entries of the requested device type;
`none` models the `ValueError` of parsing a malformed stored version. -/
def serverLatestLoop (dt : String) : List Entry → String → Option Entry →
    Option (String × Option Entry)
  | [], lv, le => some (lv, le)
  | e :: rest, lv, le =>
    if e.device_type = dt then
      match parse_version e.version, parse_version lv with
      | some pe, some pl =>
        if pyListLt pl pe then serverLatestLoop dt rest e.version (some e)
        else serverLatestLoop dt rest lv le
      | _, _ => none
    else serverLatestLoop dt rest lv le

/-- `json.dumps({"error": "No firmware found for specified device type"})`. -/
def noFirmwareErrorJson : String :=
  "\x7b\"error\": \"No firmware found for specified device type\"\x7d"

/-- server.py's outer exception handler response (the source appends
`str(e)` to the body; the text is not load-bearing here). -/
def serverError500 : Response :=
  { status := 500, headers := [("Content-Type", "text/plain")],
    body := "Internal server error" }

/-- The status page body of server.py lines 219-229. -/
def serverStatusPageBody (m : Catalog) : String :=
  "<html><body><h1>FOTA Server</h1>" ++
  "<p>Latest version: " ++ m.latest_version ++ "</p>" ++
  "<p>Available firmware: " ++ toString m.firmware_entries.length ++ "</p>" ++
  "<h2>Available Firmware Files:</h2><ul>" ++
  String.join (m.firmware_entries.map (fun e =>
    "<li>" ++ e.device_type ++ " v" ++ e.version ++ " - " ++ e.description ++
    " (" ++ toString e.size ++ " bytes)</li>")) ++
  "</ul></body></html>"

/-- The route handlers of server.py (lines 213-301). -/
def server_dispatch (w : ServerWorld) (path : String) (query : List (String × String)) :
    Response :=
  if path = "/" then
    match w.metaParsed with
    | none => serverError500
    | some m => { status := 200, headers := [("Content-Type", "text/html")],
                  body := serverStatusPageBody m }
  else if path = "/api/firmware/list" then
    match w.metaParsed with
    | none => serverError500
    | some m => { status := 200, headers := [("Content-Type", "application/json")],
                  body := serializeCatalog m }
  else if path = "/api/firmware/latest" then
    let device_type := (lookupLast query "device_type").getD ""
    match w.metaParsed with
    | none => serverError500
    | some m =>
      match serverLatestLoop device_type m.firmware_entries "0.0.0" none with
      | none => serverError500
      | some (_, some e) =>
          { status := 200, headers := [("Content-Type", "application/json")],
            body := serializeEntry e }
      | some (_, none) =>
          { status := 404, headers := [("Content-Type", "application/json")],
            body := noFirmwareErrorJson }
  else if strStartsWith path "/download/" then
    let filename := strDrop path 10
    match w.files.lookup ("/firmware/" ++ filename) with
    | none => { status := 404, headers := [("Content-Type", "text/plain")],
                body := "File not found" }
    | some bytes =>
        { status := 200,
          headers := [("Content-Type", "application/octet-stream"),
                      ("Content-Length", toString bytes.length),
                      ("Content-Disposition", "attachment; filename=\"" ++ filename ++ "\"")],
          body := "", fileBytes := bytes }
  else
    { status := 404, headers := [("Content-Type", "text/plain")],
      body := "Endpoint not found" }

/-- `handle_request` of server.py (lines 190-315). On a malformed request
line the source sends `HTTP_400`, a name it never defines: the `NameError`
is caught by the outer handler, which answers 500. The gate exempts only
`/download/` paths. -/
def server_handle_request (w : ServerWorld) (request : String) : Response :=
  match parse_request request with
  | none => serverError500
  | some r =>
    if !(strStartsWith r.path "/download/") && !(check_auth r.headers) then
      authRequired401
    else
      server_dispatch w r.path r.query

theorem processWords_eq_foldl (l : List Nat) :
    ∀ crc, processWords crc l = (specWords l).foldl crcWordStep crc := by
  induction l using specWords.induct with
  | case1 => intro crc; simp [processWords, specWords]
  | case2 a b c d rest ih =>
      intro crc
      simp only [processWords, specWords, List.foldl_cons]
      exact ih _
  | case3 a => intro crc; simp [processWords, specWords]
  | case4 a b => intro crc; simp [processWords, specWords]
  | case5 a b c => intro crc; simp [processWords, specWords]

theorem specWords_append (l₁ l₂ : List Nat) (h : l₁.length % 4 = 0) :
    specWords (l₁ ++ l₂) = specWords l₁ ++ specWords l₂ := by
  induction l₁ using specWords.induct with
  | case1 => simp [specWords]
  | case2 a b c d rest ih =>
      simp only [List.length_cons] at h
      simp only [List.cons_append, specWords, List.append_eq]
      rw [ih (by omega)]
  | case3 a => simp at h
  | case4 a b => simp at h
  | case5 a b c => simp at h

theorem crcChunksGo_nil (cs : Nat) : ∀ fuel crc, crcChunksGo cs fuel crc [] = crc := by
  intro fuel crc
  cases fuel with
  | zero => rfl
  | succ fuel => simp [crcChunksGo]

theorem crcChunksGo_eq_spec (cs : Nat) (hpos : 0 < cs) (h4 : cs % 4 = 0) :
    ∀ (fuel : Nat) (data : List Nat), data.length < fuel → ∀ crc,
      crcChunksGo cs fuel crc data = (specWords data).foldl crcWordStep crc := by
  intro fuel
  induction fuel with
  | zero => intro data hlen; omega
  | succ fuel ih =>
      intro data hlen crc
      by_cases hnil : data = []
      · subst hnil; simp [crcChunksGo, specWords]
      · rw [crcChunksGo, if_neg (by push_neg; exact ⟨by omega, hnil⟩)]
        by_cases hle : data.length ≤ cs
        · rw [List.take_of_length_le hle, List.drop_eq_nil_of_le hle]
          rw [crcChunksGo_nil]
          exact processWords_eq_foldl data crc
        · have htk : (data.take cs).length % 4 = 0 := by
            rw [List.length_take]
            rw [Nat.min_def, if_pos (by omega)]
            exact h4
          have hdl : (data.drop cs).length < fuel := by
            rw [List.length_drop]
            have : 0 < data.length := List.length_pos.mpr hnil
            omega
          rw [ih _ hdl]
          conv_rhs => rw [← List.take_append_drop cs data]
          rw [specWords_append _ _ htk, List.foldl_append]
          rw [processWords_eq_foldl]

theorem crcChunksWith_eq_spec (cs : Nat) (hpos : 0 < cs) (h4 : cs % 4 = 0)
    (data : List Nat) (crc : Nat) :
    crcChunksWith cs crc data = (specWords data).foldl crcWordStep crc :=
  crcChunksGo_eq_spec cs hpos h4 (data.length + 1) data (Nat.lt_succ_self _) crc

theorem toHex8_length (n : Nat) : (toHex8 n).length = 8 := by
  simp [toHex8, String.length]

theorem toHex8_chars (n : Nat) :
    ∀ c ∈ (toHex8 n).data, c.isDigit = true ∨ ('a' ≤ c ∧ c ≤ 'f') := by
  intro c hc
  have hdata : (toHex8 n).data
      = (List.range 8).map (fun i => hexDigit ((n >>> (28 - 4 * i)) &&& 0xF)) := rfl
  rw [hdata] at hc
  obtain ⟨i, -, rfl⟩ := List.mem_map.mp hc
  have hv : (n >>> (28 - 4 * i)) &&& 0xF ≤ 15 := Nat.and_le_right
  revert hv
  generalize (n >>> (28 - 4 * i)) &&& 0xF = v
  intro hv
  interval_cases v <;> first
    | exact Or.inl (by decide)
    | exact Or.inr (by decide)

/-- C1: for every byte sequence, `calculate_stm32_crc32` returns the digest
of the hardware CRC algorithm the spec defines — register `0xFFFFFFFF`, each
32-bit little-endian word XOR-ed in followed by 32
shift-left-and-conditionally-XOR-`0x04C11DB7` steps, a final partial word
zero-padded on its high-order bytes, no final inversion — rendered as an
8-hex-digit lowercase string. -/
theorem checksum_matches_hardware_crc (data : List Nat) :
    calculate_stm32_crc32 data = specCrcDigest data ∧
    (calculate_stm32_crc32 data).length = 8 ∧
    ∀ c ∈ (calculate_stm32_crc32 data).data, c.isDigit = true ∨ ('a' ≤ c ∧ c ≤ 'f') := by
  refine ⟨?_, toHex8_length _, toHex8_chars _⟩
  unfold calculate_stm32_crc32 specCrcDigest
  rw [crcChunksWith_eq_spec 256 (by norm_num) (by norm_num)]

set_option maxRecDepth 8192 in
/-- C9 (corrected): the claim as stated is false — reading the input in
1-byte chunks pads every byte to a full word, so it disagrees with
4096-byte chunks already on the two-byte input `[0, 0]`. -/
theorem chunk_size_counterexample :
    toHex8 (crcChunksWith 1 0xFFFFFFFF [0, 0])
      ≠ toHex8 (crcChunksWith 4096 0xFFFFFFFF [0, 0]) := by
  decide

/-- C9 (amended): the digest is deterministic and invariant under the
streaming chunk size for every chunk size that is a positive multiple of 4
(in particular the source's 256 and the spec's 4096): any such chunked
computation equals the whole-input-at-once word loop and hence the
published digest. -/
theorem chunk_size_invariance_mult4 (cs : Nat) (data : List Nat)
    (h1 : 0 < cs) (h4 : cs % 4 = 0) :
    toHex8 (crcChunksWith cs 0xFFFFFFFF data) = calculate_stm32_crc32 data ∧
    crcChunksWith cs 0xFFFFFFFF data = processWords 0xFFFFFFFF data := by
  have hcs := crcChunksWith_eq_spec cs h1 h4 data 0xFFFFFFFF
  constructor
  · unfold calculate_stm32_crc32
    rw [hcs, crcChunksWith_eq_spec 256 (by norm_num) (by norm_num)]
  · rw [hcs, processWords_eq_foldl]

theorem chunk_size_invariance_mult4_witness :
    0 < 4 ∧ 4 % 4 = 0 ∧
    (toHex8 (crcChunksWith 4 0xFFFFFFFF [1, 2, 3, 4, 5]) = calculate_stm32_crc32 [1, 2, 3, 4, 5] ∧
     crcChunksWith 4 0xFFFFFFFF [1, 2, 3, 4, 5] = processWords 0xFFFFFFFF [1, 2, 3, 4, 5]) :=
  ⟨by decide, by decide, chunk_size_invariance_mult4 4 [1, 2, 3, 4, 5] (by decide) (by decide)⟩

set_option maxRecDepth 16384

theorem pyCombo_eq_lexCmp :
    ∀ (a b : List Nat), a.length = b.length →
      ((if pyListLt b a then (1 : Int) else 0) - (if pyListLt a b then 1 else 0))
        = lexCmp a b := by
  intro a
  induction a with
  | nil =>
      intro b hb
      cases b with
      | nil => decide
      | cons y bs => simp at hb
  | cons x as ih =>
      intro b hb
      cases b with
      | nil => simp at hb
      | cons y bs =>
        simp only [List.length_cons, Nat.add_right_cancel_iff] at hb
        rcases Nat.lt_trichotomy x y with h | h | h
        · have h1 : pyListLt (y :: bs) (x :: as) = false := by
            simp [pyListLt, Nat.lt_asymm h]
            omega
          have h2 : pyListLt (x :: as) (y :: bs) = true := by
            simp [pyListLt, h]
          rw [h1, h2]
          simp [lexCmp, h]
        · subst h
          have h1 : pyListLt (x :: bs) (x :: as) = pyListLt bs as := by
            simp [pyListLt]
          have h2 : pyListLt (x :: as) (x :: bs) = pyListLt as bs := by
            simp [pyListLt]
          rw [h1, h2]
          simp only [lexCmp, Nat.lt_irrefl, if_false]
          exact ih bs hb
        · have h1 : pyListLt (y :: bs) (x :: as) = true := by
            simp [pyListLt, h]
          have h2 : pyListLt (x :: as) (y :: bs) = false := by
            simp [pyListLt, Nat.lt_asymm h]
            omega
          rw [h1, h2]
          simp [lexCmp, Nat.lt_asymm h, h]

theorem allZero_append_replicate (l : List Nat) (k : Nat) :
    allZero (l ++ List.replicate k 0) = allZero l := by
  simp [allZero, List.all_append]

theorem lexCmp_eq_listCmp :
    ∀ (a b : List Nat), a.length = b.length → lexCmp a b = listCmp a b := by
  intro a
  induction a with
  | nil =>
      intro b hb
      cases b with
      | nil => rfl
      | cons y bs => simp at hb
  | cons x as ih =>
      intro b hb
      cases b with
      | nil => simp at hb
      | cons y bs =>
        simp only [List.length_cons, Nat.add_right_cancel_iff] at hb
        simp only [lexCmp, listCmp]
        rw [ih bs hb]

theorem listCmp_replicate_zero_left :
    ∀ (k : Nat) (b : List Nat), listCmp (List.replicate k 0) b = listCmp [] b := by
  intro k
  induction k with
  | zero => intro b; rfl
  | succ k ih =>
      intro b
      cases b with
      | nil =>
          simp [List.replicate_succ, listCmp, allZero]
      | cons y bs =>
          simp only [List.replicate_succ, listCmp]
          by_cases hy : 0 < y
          · rw [if_pos hy]
            simp only [listCmp, allZero, List.all_cons]
            rw [if_neg (by simp; omega)]
          · have hy0 : y = 0 := by omega
            subst hy0
            rw [if_neg (by omega), if_neg (by omega)]
            rw [ih bs]
            simp [listCmp, allZero]

theorem listCmp_append_zeros_left :
    ∀ (a : List Nat) (k : Nat) (b : List Nat),
      listCmp (a ++ List.replicate k 0) b = listCmp a b := by
  intro a
  induction a with
  | nil =>
      intro k b
      simp only [List.nil_append]
      exact listCmp_replicate_zero_left k b
  | cons x as ih =>
      intro k b
      cases b with
      | nil =>
          simp only [List.cons_append, listCmp, List.append_eq]
          have hz : allZero (x :: (as ++ List.replicate k 0)) = allZero (x :: as) := by
            rw [show (x :: (as ++ List.replicate k 0))
                  = ((x :: as) ++ List.replicate k 0) from rfl,
              allZero_append_replicate]
          simp only [hz]
      | cons y bs =>
          simp only [List.cons_append, listCmp, List.append_eq]
          rw [ih k bs]

theorem listCmp_swap_nil : ∀ (b : List Nat), listCmp b [] = -listCmp [] b := by
  intro b
  cases b with
  | nil => rfl
  | cons y bs =>
      simp only [listCmp]
      by_cases hz : allZero (y :: bs)
      · rw [if_pos hz, if_pos hz]; rfl
      · rw [if_neg hz, if_neg hz]; rfl

theorem listCmp_swap : ∀ (a b : List Nat), listCmp b a = -listCmp a b := by
  intro a
  induction a with
  | nil => exact listCmp_swap_nil
  | cons x as ih =>
      intro b
      cases b with
      | nil =>
          have := listCmp_swap_nil (x :: as)
          omega
      | cons y bs =>
          simp only [listCmp]
          rcases Nat.lt_trichotomy x y with h | h | h
          · rw [if_neg (by omega), if_pos h, if_pos h]; rfl
          · subst h
            rw [if_neg (by omega), if_neg (by omega), if_neg (by omega), if_neg (by omega)]
            exact ih bs
          · rw [if_pos h, if_neg (by omega), if_pos h]

theorem listCmp_append_zeros_right (a : List Nat) (k : Nat) (b : List Nat) :
    listCmp a (b ++ List.replicate k 0) = listCmp a b := by
  have h1 := listCmp_swap (b ++ List.replicate k 0) a
  have h2 := listCmp_swap b a
  have h3 := listCmp_append_zeros_left b k a
  omega

theorem padZeros_length (v : List Nat) (n : Nat) (h : v.length ≤ n) :
    (padZeros v n).length = n := by
  simp [padZeros]
  omega

theorem compareLists_eq_listCmp (v1 v2 : List Nat) :
    compareLists v1 v2 = listCmp v1 v2 := by
  unfold compareLists
  have hlen : (padZeros v1 (max v1.length v2.length)).length
      = (padZeros v2 (max v1.length v2.length)).length := by
    rw [padZeros_length _ _ (Nat.le_max_left _ _), padZeros_length _ _ (Nat.le_max_right _ _)]
  rw [pyCombo_eq_lexCmp _ _ hlen, lexCmp_eq_listCmp _ _ hlen]
  unfold padZeros
  rw [listCmp_append_zeros_left, listCmp_append_zeros_right]

theorem specVersionCompare_eq_listCmp (v1 v2 : List Nat) :
    specVersionCompare v1 v2 = listCmp v1 v2 := by
  unfold specVersionCompare
  have hlen : (v1 ++ List.replicate (max v1.length v2.length - v1.length) 0).length
      = (v2 ++ List.replicate (max v1.length v2.length - v2.length) 0).length := by
    simp only [List.length_append, List.length_replicate]
    omega
  rw [lexCmp_eq_listCmp _ _ hlen, listCmp_append_zeros_left, listCmp_append_zeros_right]

/-- C3: for well-formed dot-separated version strings, `compare_versions`
right-pads the shorter component sequence with zero components and compares
the integer sequences lexicographically; in particular
`compare("1.2", "1.2.0")` is `equal` (`0`) and `compare("1.10", "1.9")` is
`greater` (`1`). -/
theorem compare_versions_pads_and_compares_lexicographically
    (s1 s2 : String) (v1 v2 : List Nat)
    (h1 : parseComponents s1 = some v1) (h2 : parseComponents s2 = some v2) :
    compare_versions s1 s2 = some (specVersionCompare v1 v2) ∧
    compare_versions "1.2" "1.2.0" = some 0 ∧
    compare_versions "1.10" "1.9" = some 1 := by
  refine ⟨?_, by decide, by decide⟩
  unfold compare_versions
  rw [h1, h2]
  simp only [Option.bind_eq_bind, Option.some_bind, Option.pure_def]
  rw [compareLists_eq_listCmp, specVersionCompare_eq_listCmp]

theorem compare_versions_pads_witness :
    parseComponents "1.2" = some [1, 2] ∧ parseComponents "1.2.0" = some [1, 2, 0] ∧
    (compare_versions "1.2" "1.2.0" = some (specVersionCompare [1, 2] [1, 2, 0]) ∧
     compare_versions "1.2" "1.2.0" = some 0 ∧
     compare_versions "1.10" "1.9" = some 1) :=
  ⟨by decide, by decide,
    compare_versions_pads_and_compares_lexicographically "1.2" "1.2.0" [1, 2] [1, 2, 0]
      (by decide) (by decide)⟩

theorem listCmp_nil_left (b : List Nat) :
    listCmp [] b = if allZero b then 0 else -1 := rfl

theorem listCmp_nonneg_nil (b : List Nat) : 0 ≤ listCmp b [] := by
  cases b with
  | nil => decide
  | cons y bs =>
      simp only [listCmp]
      by_cases hz : allZero (y :: bs) <;> simp [hz]

theorem allZero_cons (x : Nat) (l : List Nat) :
    allZero (x :: l) = ((x == 0) && allZero l) := rfl

theorem allZero_listCmp_left :
    ∀ (b : List Nat), allZero b = true → ∀ (c : List Nat), listCmp b c = listCmp [] c := by
  intro b
  induction b with
  | nil => intro _ c; rfl
  | cons y bs ih =>
      intro hz c
      rw [allZero_cons, Bool.and_eq_true, beq_iff_eq] at hz
      obtain ⟨hy, hbs⟩ := hz
      subst hy
      cases c with
      | nil =>
          simp only [listCmp]
          rw [if_pos (by rw [allZero_cons, hbs]; rfl)]
          rfl
      | cons z cs =>
          simp only [listCmp]
          by_cases hzp : 0 < z
          · rw [if_pos hzp, if_neg (by
              rw [allZero_cons]
              intro hcontra
              rw [Bool.and_eq_true, beq_iff_eq] at hcontra
              omega)]
          · have hz0 : z = 0 := by omega
            subst hz0
            rw [if_neg (by omega), if_neg (by omega), ih hbs cs, listCmp_nil_left]
            have hzz : allZero (0 :: cs) = allZero cs := by
              rw [allZero_cons]; simp
            simp only [hzz]

theorem listCmp_trans :
    ∀ (a b c : List Nat), 0 ≤ listCmp a b → 0 ≤ listCmp b c → 0 ≤ listCmp a c := by
  intro a
  induction a with
  | nil =>
      intro b c h1 h2
      rw [listCmp_nil_left] at h1
      by_cases hz : allZero b
      · rw [allZero_listCmp_left b hz c] at h2
        exact h2
      · rw [if_neg hz] at h1
        omega
  | cons x as ih =>
      intro b c h1 h2
      cases b with
      | nil =>
          rw [listCmp_nil_left] at h2
          by_cases hz : allZero c
          · have hcc : listCmp (x :: as) c = -listCmp c (x :: as) := by
              rw [listCmp_swap]
            rw [allZero_listCmp_left c hz (x :: as), listCmp_nil_left] at hcc
            by_cases hz2 : allZero (x :: as)
            · rw [hcc, if_pos hz2]; decide
            · rw [hcc, if_neg hz2]; decide
          · rw [if_neg hz] at h2
            omega
      | cons y bs =>
        cases c with
        | nil => exact listCmp_nonneg_nil _
        | cons z cs =>
            simp only [listCmp] at h1 h2 ⊢
            by_cases hxy : x < y
            · rw [if_pos hxy] at h1; omega
            · rw [if_neg hxy] at h1
              by_cases hyz : y < z
              · rw [if_pos hyz] at h2; omega
              · rw [if_neg hyz] at h2
                by_cases hyx : y < x
                · rw [if_pos hyx] at h1
                  rw [if_neg (by omega), if_pos (by omega)]
                  decide
                · rw [if_neg hyx] at h1
                  by_cases hzy : z < y
                  · rw [if_pos hzy] at h2
                    rw [if_neg (by omega), if_pos (by omega)]
                    decide
                  · rw [if_neg hzy] at h2
                    have hxz : ¬ x < z := by omega
                    have hzx : ¬ z < x := by omega
                    rw [if_neg hxz, if_neg hzx]
                    exact ih bs cs h1 h2

theorem listCmp_self : ∀ (v : List Nat), listCmp v v = 0 := by
  intro v
  induction v with
  | nil => decide
  | cons x xs ih =>
      simp only [listCmp]
      rw [if_neg (by omega), if_neg (by omega)]
      exact ih

theorem compare_versions_eq_listCmp (a b : String) (va vb : List Nat)
    (ha : parseComponents a = some va) (hb : parseComponents b = some vb) :
    compare_versions a b = some (listCmp va vb) := by
  unfold compare_versions
  rw [ha, hb]
  simp only [Option.bind_eq_bind, Option.some_bind, Option.pure_def]
  rw [compareLists_eq_listCmp]

theorem compare_versions_some_parses {a b : String} {k : Int}
    (h : compare_versions a b = some k) :
    ∃ va vb, parseComponents a = some va ∧ parseComponents b = some vb ∧
      k = listCmp va vb := by
  unfold compare_versions at h
  cases hpa : parseComponents a with
  | none => rw [hpa] at h; simp at h
  | some va =>
    cases hpb : parseComponents b with
    | none => rw [hpa, hpb] at h; simp at h
    | some vb =>
      rw [hpa, hpb] at h
      simp only [Option.bind_eq_bind, Option.some_bind, Option.pure_def,
        Option.some_inj] at h
      rw [compareLists_eq_listCmp] at h
      exact ⟨va, vb, rfl, rfl, h.symm⟩

theorem versionGE_refl (s : String) (h : WFver s) : versionGE s s := by
  obtain ⟨v, hv⟩ := Option.isSome_iff_exists.mp h
  exact ⟨listCmp v v, compare_versions_eq_listCmp s s v v hv hv, by rw [listCmp_self]⟩

theorem versionGE_trans (a b c : String) (hab : versionGE a b) (hbc : versionGE b c) :
    versionGE a c := by
  obtain ⟨k1, hk1, hk1n⟩ := hab
  obtain ⟨k2, hk2, hk2n⟩ := hbc
  obtain ⟨va, vb, hpa, hpb, hke1⟩ := compare_versions_some_parses hk1
  obtain ⟨vb', vc, hpb', hpc, hke2⟩ := compare_versions_some_parses hk2
  rw [hpb] at hpb'
  injection hpb' with hbb
  subst hbb
  subst hke1
  subst hke2
  exact ⟨listCmp va vc, compare_versions_eq_listCmp a c va vc hpa hpc,
    listCmp_trans va vb vc hk1n hk2n⟩

theorem ingestMeta_step (c : Catalog) (e : Entry)
    (hc : WFver c.latest_version) (he : WFver e.version) :
    ∃ c', ingestMeta c e = some c' ∧ WFver c'.latest_version ∧
      versionGE c'.latest_version c.latest_version ∧
      versionGE c'.latest_version e.version := by
  obtain ⟨vc, hvc⟩ := Option.isSome_iff_exists.mp hc
  obtain ⟨ve, hve⟩ := Option.isSome_iff_exists.mp he
  have hcomp := compare_versions_eq_listCmp e.version c.latest_version ve vc hve hvc
  unfold ingestMeta
  rw [hcomp]
  by_cases hk : 0 < listCmp ve vc
  · refine ⟨_, rfl, ?_, ?_, ?_⟩
    · simpa [if_pos hk] using he
    · simp only [if_pos hk]
      exact ⟨listCmp ve vc, hcomp, by omega⟩
    · simp only [if_pos hk]
      exact versionGE_refl e.version he
  · refine ⟨_, rfl, ?_, ?_, ?_⟩
    · simpa [if_neg hk] using hc
    · simp only [if_neg hk]
      exact versionGE_refl c.latest_version hc
    · simp only [if_neg hk]
      refine ⟨listCmp vc ve, compare_versions_eq_listCmp _ _ vc ve hvc hve, ?_⟩
      have := listCmp_swap ve vc
      omega

theorem foldIngest_props :
    ∀ (es : List Entry) (c : Catalog), WFver c.latest_version →
      (∀ e ∈ es, WFver e.version) →
      ∃ cend, foldIngest c es = some cend ∧ WFver cend.latest_version ∧
        versionGE cend.latest_version c.latest_version ∧
        ∀ e ∈ es, versionGE cend.latest_version e.version := by
  intro es
  induction es with
  | nil =>
      intro c hc _
      exact ⟨c, rfl, hc, versionGE_refl _ hc, by simp⟩
  | cons e rest ih =>
      intro c hc hall
      obtain ⟨c1, hstep, hwf1, hge1, hgee⟩ :=
        ingestMeta_step c e hc (hall e (by simp))
      obtain ⟨cend, hfold, hwfend, hgeend, hgeall⟩ :=
        ih c1 hwf1 (fun x hx => hall x (by simp [hx]))
      refine ⟨cend, ?_, hwfend, versionGE_trans _ _ _ hgeend hge1, ?_⟩
      · simp only [foldIngest, hstep, hfold]
      · intro x hx
        rcases List.mem_cons.mp hx with hx | hx
        · subst hx
          exact versionGE_trans _ _ _ hgeend hgee
        · exact hgeall x hx

/-- C5: starting from the empty catalog, after any finite sequence of
successful ingestions of well-formed versions, `latest_version` is ≥ (under
the version ordering) every ingested version; and from any catalog with a
well-formed `latest_version`, a successful ingestion never decreases
`latest_version`, regardless of order. -/
theorem latest_version_monotone (c : Catalog) (e : Entry) (es : List Entry)
    (hc : WFver c.latest_version) (he : WFver e.version)
    (hall : ∀ x ∈ es, WFver x.version) :
    (∃ c', ingestMeta c e = some c' ∧ versionGE c'.latest_version c.latest_version) ∧
    (∃ cend, foldIngest emptyCatalog es = some cend ∧
      ∀ x ∈ es, versionGE cend.latest_version x.version) := by
  constructor
  · obtain ⟨c', hs, _, hge, _⟩ := ingestMeta_step c e hc he
    exact ⟨c', hs, hge⟩
  · obtain ⟨cend, hf, _, _, hgeall⟩ :=
      foldIngest_props es emptyCatalog (by decide) hall
    exact ⟨cend, hf, hgeall⟩

theorem latest_version_monotone_witness :
    WFver (emptyCatalog.latest_version) ∧
    ((∃ c', ingestMeta emptyCatalog
        { version := "1.2.0", device_type := "dev1", filename := "a", size := 1,
          checksum := "c", description := "", upload_date := 0 } = some c' ∧
        versionGE c'.latest_version emptyCatalog.latest_version) ∧
     (∃ cend, foldIngest emptyCatalog
        ([{ version := "1.2.0", device_type := "dev1", filename := "a", size := 1,
            checksum := "c", description := "", upload_date := 0 },
          { version := "1.0.0", device_type := "dev1", filename := "b", size := 1,
            checksum := "c", description := "", upload_date := 1 }] : List Entry) = some cend ∧
        ∀ x ∈ ([{ version := "1.2.0", device_type := "dev1", filename := "a", size := 1,
                  checksum := "c", description := "", upload_date := 0 },
                { version := "1.0.0", device_type := "dev1", filename := "b", size := 1,
                  checksum := "c", description := "", upload_date := 1 }] : List Entry),
          versionGE cend.latest_version x.version)) :=
  ⟨by decide,
    latest_version_monotone emptyCatalog
      { version := "1.2.0", device_type := "dev1", filename := "a", size := 1,
        checksum := "c", description := "", upload_date := 0 }
      [{ version := "1.2.0", device_type := "dev1", filename := "a", size := 1,
         checksum := "c", description := "", upload_date := 0 },
       { version := "1.0.0", device_type := "dev1", filename := "b", size := 1,
         checksum := "c", description := "", upload_date := 1 }]
      (by decide) (by decide) (by decide)⟩

theorem mem_upsertEntries (l : List Entry) (e b : Entry)
    (hb : b ∈ upsertEntries l e) : b = e ∨ b ∈ l := by
  induction l with
  | nil =>
      simp only [upsertEntries, List.mem_singleton] at hb
      exact Or.inl hb
  | cons x xs ih =>
      simp only [upsertEntries] at hb
      by_cases hkey : x.device_type = e.device_type ∧ x.version = e.version
      · rw [if_pos hkey] at hb
        rcases List.mem_cons.mp hb with h | h
        · exact Or.inl h
        · exact Or.inr (List.mem_cons_of_mem _ h)
      · rw [if_neg hkey] at hb
        rcases List.mem_cons.mp hb with h | h
        · exact Or.inr (by simp [h])
        · rcases ih h with h' | h'
          · exact Or.inl h'
          · exact Or.inr (List.mem_cons_of_mem _ h')

theorem upsertEntries_preserves_unique (l : List Entry) (e : Entry)
    (h : UniqueKeys l) : UniqueKeys (upsertEntries l e) := by
  induction l with
  | nil =>
      simp [upsertEntries, UniqueKeys]
  | cons x xs ih =>
      rw [UniqueKeys, List.pairwise_cons] at h
      obtain ⟨hx, hxs⟩ := h
      simp only [upsertEntries]
      by_cases hkey : x.device_type = e.device_type ∧ x.version = e.version
      · rw [if_pos hkey]
        rw [UniqueKeys, List.pairwise_cons]
        refine ⟨?_, hxs⟩
        intro b hb hcontra
        exact hx b hb ⟨hkey.1.trans hcontra.1, hkey.2.trans hcontra.2⟩
      · rw [if_neg hkey]
        rw [UniqueKeys, List.pairwise_cons]
        refine ⟨?_, ih hxs⟩
        intro b hb
        rcases mem_upsertEntries xs e b hb with hbe | hbx
        · subst hbe
          exact hkey
        · exact hx b hbx

theorem entriesForKey_upsert (l : List Entry) (e : Entry)
    (h : UniqueKeys l) : entriesForKey (upsertEntries l e) e = [e] := by
  induction l with
  | nil =>
      simp [upsertEntries, entriesForKey]
  | cons x xs ih =>
      rw [UniqueKeys, List.pairwise_cons] at h
      obtain ⟨hx, hxs⟩ := h
      simp only [upsertEntries]
      by_cases hkey : x.device_type = e.device_type ∧ x.version = e.version
      · rw [if_pos hkey]
        simp only [entriesForKey, List.filter_cons]
        rw [if_pos (by simp)]
        have hnone : xs.filter
            (fun b => decide (b.device_type = e.device_type ∧ b.version = e.version)) = [] := by
          rw [List.filter_eq_nil_iff]
          intro b hb
          simp only [decide_eq_true_eq]
          intro hcontra
          exact hx b hb ⟨hkey.1.trans hcontra.1.symm, hkey.2.trans hcontra.2.symm⟩
        rw [hnone]
      · rw [if_neg hkey]
        simp only [entriesForKey, List.filter_cons]
        rw [if_neg (by simpa using hkey)]
        exact ih hxs

theorem self_mem_upsertEntries (l : List Entry) (e : Entry) :
    e ∈ upsertEntries l e := by
  induction l with
  | nil => simp [upsertEntries]
  | cons x xs ih =>
      simp only [upsertEntries]
      by_cases hkey : x.device_type = e.device_type ∧ x.version = e.version
      · rw [if_pos hkey]; simp
      · rw [if_neg hkey]
        exact List.mem_cons_of_mem _ ih

theorem upsertEntries_length_of_mem (l : List Entry) (e : Entry)
    (h : ∃ x ∈ l, x.device_type = e.device_type ∧ x.version = e.version) :
    (upsertEntries l e).length = l.length := by
  induction l with
  | nil => simp at h
  | cons x xs ih =>
      simp only [upsertEntries]
      by_cases hkey : x.device_type = e.device_type ∧ x.version = e.version
      · rw [if_pos hkey]; simp
      · rw [if_neg hkey]
        obtain ⟨y, hy, hykey⟩ := h
        rcases List.mem_cons.mp hy with hyx | hyxs
        · subst hyx; exact absurd hykey hkey
        · simp only [List.length_cons]
          rw [ih ⟨y, hyxs, hykey⟩]

/-- C4: the uniqueness invariant (at most one entry per
`(device_type, version)` pair) is preserved by every upsert; and starting
from any catalog satisfying it, ingesting the same pair twice with different
descriptions leaves exactly one entry for that pair — the later upload's —
and never appends a duplicate (the second upsert does not grow the list). -/
theorem upsert_preserves_uniqueness (l : List Entry) (e1 e2 : Entry)
    (h : UniqueKeys l) (hdt : e1.device_type = e2.device_type)
    (hv : e1.version = e2.version) :
    (∀ (l' : List Entry) (e : Entry), UniqueKeys l' → UniqueKeys (upsertEntries l' e)) ∧
    UniqueKeys (upsertEntries (upsertEntries l e1) e2) ∧
    entriesForKey (upsertEntries (upsertEntries l e1) e2) e2 = [e2] ∧
    (upsertEntries (upsertEntries l e1) e2).length = (upsertEntries l e1).length := by
  have h1 : UniqueKeys (upsertEntries l e1) := upsertEntries_preserves_unique l e1 h
  refine ⟨fun l' e hu => upsertEntries_preserves_unique l' e hu,
    upsertEntries_preserves_unique _ e2 h1,
    entriesForKey_upsert _ e2 h1,
    upsertEntries_length_of_mem _ e2 ⟨e1, self_mem_upsertEntries l e1, hdt, hv⟩⟩

theorem upsert_preserves_uniqueness_witness :
    UniqueKeys ([{ version := "1.0.0", device_type := "dev1", filename := "a", size := 1,
                   checksum := "c", description := "old", upload_date := 0 }] : List Entry) ∧
    (let l : List Entry :=
      [{ version := "1.0.0", device_type := "dev1", filename := "a", size := 1,
         checksum := "c", description := "old", upload_date := 0 }]
     let e1 : Entry :=
      { version := "1.0.0", device_type := "dev1", filename := "a", size := 2,
        checksum := "d", description := "first", upload_date := 1 }
     let e2 : Entry :=
      { version := "1.0.0", device_type := "dev1", filename := "a", size := 3,
        checksum := "e", description := "second", upload_date := 2 }
     (∀ (l' : List Entry) (e : Entry), UniqueKeys l' → UniqueKeys (upsertEntries l' e)) ∧
     UniqueKeys (upsertEntries (upsertEntries l e1) e2) ∧
     entriesForKey (upsertEntries (upsertEntries l e1) e2) e2 = [e2] ∧
     (upsertEntries (upsertEntries l e1) e2).length = (upsertEntries l e1).length) :=
  ⟨by decide,
    upsert_preserves_uniqueness
      [{ version := "1.0.0", device_type := "dev1", filename := "a", size := 1,
         checksum := "c", description := "old", upload_date := 0 }]
      { version := "1.0.0", device_type := "dev1", filename := "a", size := 2,
        checksum := "d", description := "first", upload_date := 1 }
      { version := "1.0.0", device_type := "dev1", filename := "a", size := 3,
        checksum := "e", description := "second", upload_date := 2 }
      (by decide) (by decide) (by decide)⟩

theorem loadMetadata_ensure (m : MetaDoc) :
    loadMetadata (ensureMetadataFile m) = loadMetadata m := by
  cases m <;> rfl

/-- C6: ingestion is all-or-nothing for the catalog. On a source-open, copy
or checksum failure the tool returns a failure result, performs no upsert and
leaves the visible catalog unchanged; on success the binary is on disk under
the derived filename with the source bytes, the committed entry carries the
size and checksum computed from that written copy, and the catalog upsert is
performed exactly once. -/
theorem ingestion_all_or_nothing
    (w : IngestWorld) (ff v dt desc : String) (now : Nat)
    (ci : Option Nat) (cf sf : Bool) (r : IngestOutcome) (base dest : String)
    (hr : upload_firmware w ff v dt desc now ci cf sf = r)
    (hbase : base = dt ++ "-v" ++ v ++ "." ++ String.mk ((splitOnCh '.' ff.data).getLastD []))
    (hdest : dest = "/firmware/" ++ base) :
    ((w.files.lookup ff = none ∨ ci.isSome = true ∨ cf = true) →
      r.ok = false ∧ r.meta = ensureMetadataFile w.meta ∧ r.upserts = 0 ∧
      (loadMetadata r.meta).firmware_entries = (loadMetadata w.meta).firmware_entries) ∧
    (r.ok = true →
      ∃ src k,
        w.files.lookup ff = some src ∧
        r.files.lookup dest = some src ∧
        r.upserts = 1 ∧
        compare_versions v (loadMetadata (ensureMetadataFile w.meta)).latest_version = some k ∧
        r.meta = MetaDoc.valid
          { firmware_entries := upsertEntries
              (loadMetadata (ensureMetadataFile w.meta)).firmware_entries
              { version := v, device_type := dt, filename := base, size := src.length,
                checksum := calculate_stm32_crc32 src, description := desc,
                upload_date := now },
            latest_version := if 0 < k then v
              else (loadMetadata (ensureMetadataFile w.meta)).latest_version }) := by
  subst hdest
  subst hbase
  subst hr
  cases hlk : w.files.lookup ff with
  | none =>
      constructor
      · intro _
        simp [upload_firmware, hlk, loadMetadata_ensure]
      · intro hok
        simp [upload_firmware, hlk] at hok
  | some src =>
    cases ci with
    | some kpart =>
        constructor
        · intro _
          simp [upload_firmware, hlk, loadMetadata_ensure]
        · intro hok
          simp [upload_firmware, hlk] at hok
    | none =>
      cases cf with
      | true =>
          constructor
          · intro _
            simp [upload_firmware, hlk, loadMetadata_ensure]
          · intro hok
            simp [upload_firmware, hlk] at hok
      | false =>
          have hnofail :
              ¬(w.files.lookup ff = none ∨ (none : Option Nat).isSome = true
                ∨ (false : Bool) = true) := by
            rw [hlk]; simp
          cases hcmp : compare_versions v
              (loadMetadata (ensureMetadataFile w.meta)).latest_version with
          | none =>
              constructor
              · intro hfail
                rw [hlk] at hnofail
                exact absurd hfail hnofail
              · intro hok
                simp [upload_firmware, hlk, ingestMeta, hcmp] at hok
          | some k =>
              cases sf with
              | true =>
                  constructor
                  · intro hfail
                    rw [hlk] at hnofail
                    exact absurd hfail hnofail
                  · intro hok
                    simp [upload_firmware, hlk, ingestMeta, hcmp] at hok
              | false =>
                  constructor
                  · intro hfail
                    rw [hlk] at hnofail
                    exact absurd hfail hnofail
                  · intro _
                    refine ⟨src, k, rfl, ?_, ?_, ?_, ?_⟩ <;>
                      first
                        | exact hcmp
                        | rfl
                        | simp [upload_firmware, hlk, ingestMeta, hcmp, fsWrite, List.lookup]

theorem ingestion_all_or_nothing_witness :
    (upload_firmware (IngestWorld.mk [("fw.bin", [1, 2, 3])] MetaDoc.missing)
        "fw.bin" "1.0.0" "dev1" "d" 7 none false false).ok = true ∧
    (∃ src k,
      (IngestWorld.mk [("fw.bin", [1, 2, 3])] MetaDoc.missing).files.lookup "fw.bin"
          = some src ∧
      (upload_firmware (IngestWorld.mk [("fw.bin", [1, 2, 3])] MetaDoc.missing)
          "fw.bin" "1.0.0" "dev1" "d" 7 none false false).files.lookup
        ("/firmware/" ++ ("dev1" ++ "-v" ++ "1.0.0" ++ "." ++
          String.mk ((splitOnCh '.' "fw.bin".data).getLastD []))) = some src ∧
      (upload_firmware (IngestWorld.mk [("fw.bin", [1, 2, 3])] MetaDoc.missing)
          "fw.bin" "1.0.0" "dev1" "d" 7 none false false).upserts = 1 ∧
      compare_versions "1.0.0"
        (loadMetadata (ensureMetadataFile
          (IngestWorld.mk [("fw.bin", [1, 2, 3])] MetaDoc.missing).meta)).latest_version
          = some k ∧
      (upload_firmware (IngestWorld.mk [("fw.bin", [1, 2, 3])] MetaDoc.missing)
          "fw.bin" "1.0.0" "dev1" "d" 7 none false false).meta = MetaDoc.valid
        { firmware_entries := upsertEntries
            (loadMetadata (ensureMetadataFile
              (IngestWorld.mk [("fw.bin", [1, 2, 3])] MetaDoc.missing).meta)).firmware_entries
            { version := "1.0.0", device_type := "dev1",
              filename := "dev1" ++ "-v" ++ "1.0.0" ++ "." ++
                String.mk ((splitOnCh '.' "fw.bin".data).getLastD []),
              size := src.length,
              checksum := calculate_stm32_crc32 src, description := "d",
              upload_date := 7 },
          latest_version := if 0 < k then "1.0.0"
            else (loadMetadata (ensureMetadataFile
              (IngestWorld.mk [("fw.bin", [1, 2, 3])] MetaDoc.missing).meta)).latest_version }) :=
  ⟨by decide,
    (ingestion_all_or_nothing (IngestWorld.mk [("fw.bin", [1, 2, 3])] MetaDoc.missing)
      "fw.bin" "1.0.0" "dev1" "d" 7 none false false _
      ("dev1" ++ "-v" ++ "1.0.0" ++ "." ++ String.mk ((splitOnCh '.' "fw.bin".data).getLastD []))
      ("/firmware/" ++ ("dev1" ++ "-v" ++ "1.0.0" ++ "." ++
        String.mk ((splitOnCh '.' "fw.bin".data).getLastD [])))
      rfl rfl rfl).2 (by decide)⟩

/-- C2: the auth gate of main.py exempts exactly the `/download/` prefix and
the exact path `/firmware/metadata.json`; any other parsed request without a
credential matching the configured pair is answered 401 with a
`WWW-Authenticate` challenge before any handler logic runs (the answer does
not depend on the world at all), and an exempt path or a valid credential
proceeds to the route handlers. -/
theorem auth_gate_exempts_exactly_two_routes
    (w : ServerWorld) (request : String) (p : RequestData)
    (hp : parse_request request = some p) :
    (¬(strStartsWith p.path "/download/" = true ∨ p.path = "/firmware/metadata.json") →
      check_auth p.headers = false →
      main_handle_request w request = authRequired401 ∧
      authRequired401.status = 401 ∧
      ("WWW-Authenticate", "Basic realm=\"FOTA Server\"") ∈ authRequired401.headers) ∧
    ((strStartsWith p.path "/download/" = true ∨ p.path = "/firmware/metadata.json" ∨
        check_auth p.headers = true) →
      main_handle_request w request = main_dispatch w p.path) := by
  constructor
  · intro hex hauth
    push_neg at hex
    obtain ⟨hdl, hmeta⟩ := hex
    have h1 : strStartsWith p.path "/download/" = false := by
      revert hdl
      cases strStartsWith p.path "/download/" <;> simp
    have h2 : (p.path == "/firmware/metadata.json") = false :=
      beq_eq_false_iff_ne.mpr hmeta
    refine ⟨?_, rfl, by simp [authRequired401]⟩
    simp only [main_handle_request, hp]
    rw [if_pos (by rw [h1, h2, hauth]; rfl)]
  · intro hcase
    simp only [main_handle_request, hp]
    rw [if_neg ?hcond]
    case hcond =>
      rcases hcase with hdl | hmeta | hauth
      · rw [hdl]; simp
      · rw [beq_iff_eq.mpr hmeta]; simp
      · rw [hauth]; simp

theorem auth_gate_witness :
    (main_handle_request (ServerWorld.mk none none [])
        "GET /api/firmware/list HTTP/1.1\r\n\r\n" = authRequired401 ∧
      authRequired401.status = 401 ∧
      ("WWW-Authenticate", "Basic realm=\"FOTA Server\"") ∈ authRequired401.headers) ∧
    main_handle_request (ServerWorld.mk none none [])
        "GET /download/a.bin HTTP/1.1\r\n\r\n"
      = main_dispatch (ServerWorld.mk none none [])
          (RequestData.mk "GET" "/download/a.bin" [] []).path :=
  ⟨(auth_gate_exempts_exactly_two_routes (ServerWorld.mk none none [])
      "GET /api/firmware/list HTTP/1.1\r\n\r\n"
      (RequestData.mk "GET" "/api/firmware/list" [] []) (by decide)).1
      (by decide) (by decide),
    (auth_gate_exempts_exactly_two_routes (ServerWorld.mk none none [])
      "GET /download/a.bin HTTP/1.1\r\n\r\n"
      (RequestData.mk "GET" "/download/a.bin" [] []) (by decide)).2
      (Or.inl (by decide))⟩

/-- C8: in main.py, a request whose request line has fewer than three
whitespace-separated tokens is answered with a bare 404 response (never the
500 internal-error path — the parse returns `None` and the handler answers
404 and closes), and a header line without a `:` is skipped rather than
being fatal. -/
theorem malformed_request_line_404
    (w : ServerWorld) (request : String)
    (h : (splitWsL ((splitCrlf request.data).headD [])).length < 3) :
    main_handle_request w request = { status := 404, headers := [], body := "" } ∧
    (∀ (junk : List Char) (rest : List (List Char)),
      containsCh ':' junk = false → junk ≠ [] →
      parseHeaderLines (junk :: rest) = parseHeaderLines rest) := by
  constructor
  · have hpn : parse_request request = none := by
      simp only [parse_request]
      rw [if_pos h]
    simp only [main_handle_request, hpn]
  · intro junk rest hcol hne
    have hempty : junk.isEmpty = false := by
      cases junk with
      | nil => exact absurd rfl hne
      | cons c cs => rfl
    simp [parseHeaderLines, hcol, hempty]

theorem malformed_request_line_404_witness :
    main_handle_request (ServerWorld.mk none none []) "GET /\r\n"
        = { status := 404, headers := [], body := "" } ∧
    parseHeaderLines (['j', 'u', 'n', 'k'] :: [['H', ':', 'x']])
        = parseHeaderLines [['H', ':', 'x']] :=
  ⟨(malformed_request_line_404 (ServerWorld.mk none none []) "GET /\r\n" (by decide)).1,
    (malformed_request_line_404 (ServerWorld.mk none none []) "GET /\r\n" (by decide)).2
      ['j', 'u', 'n', 'k'] [['H', ':', 'x']] (by decide) (by decide)⟩

theorem serverLatestLoop_no_match (dt : String) :
    ∀ (l : List Entry) (lv : String) (le : Option Entry),
      (∀ e ∈ l, e.device_type ≠ dt) →
      serverLatestLoop dt l lv le = some (lv, le) := by
  intro l
  induction l with
  | nil => intro lv le _; rfl
  | cons e rest ih =>
      intro lv le hall
      simp only [serverLatestLoop]
      rw [if_neg (hall e (by simp))]
      exact ih lv le (fun x hx => hall x (by simp [hx]))

/-- C10: in server.py, a `/api/firmware/latest` request whose query lacks a
`device_type` parameter is handled as if `device_type` were `""`; over any
catalog in which no entry has an empty `device_type`, the route answers the
404 JSON error object rather than the globally-latest entry or an internal
error. -/
theorem latest_route_missing_device_type
    (w : ServerWorld) (query : List (String × String)) (m : Catalog)
    (hm : w.metaParsed = some m)
    (hne : ∀ e ∈ m.firmware_entries, e.device_type ≠ "")
    (hq : lookupLast query "device_type" = none) :
    server_dispatch w "/api/firmware/latest" query =
      { status := 404, headers := [("Content-Type", "application/json")],
        body := noFirmwareErrorJson } ∧
    server_dispatch w "/api/firmware/latest" query
      = server_dispatch w "/api/firmware/latest" [("device_type", "")] := by
  have hloop := serverLatestLoop_no_match "" m.firmware_entries "0.0.0" none hne
  have hq2 : (lookupLast [("device_type", "")] "device_type").getD "" = "" := by decide
  constructor
  · simp only [server_dispatch, if_true, hq, hm, Option.getD_none]
    rw [hloop]
    simp
  · simp only [server_dispatch, if_true, hq, hm, Option.getD_none, hq2]

theorem latest_route_missing_device_type_witness :
    server_dispatch
        (ServerWorld.mk (some "raw")
          (some (Catalog.mk
            [Entry.mk "1.0.0" "dev1" "dev1-v1.0.0.bin" 3 "c" "" 0] "1.0.0")) [])
        "/api/firmware/latest" [("x", "1")] =
      { status := 404, headers := [("Content-Type", "application/json")],
        body := noFirmwareErrorJson } ∧
    server_dispatch
        (ServerWorld.mk (some "raw")
          (some (Catalog.mk
            [Entry.mk "1.0.0" "dev1" "dev1-v1.0.0.bin" 3 "c" "" 0] "1.0.0")) [])
        "/api/firmware/latest" [("x", "1")]
      = server_dispatch
          (ServerWorld.mk (some "raw")
            (some (Catalog.mk
              [Entry.mk "1.0.0" "dev1" "dev1-v1.0.0.bin" 3 "c" "" 0] "1.0.0")) [])
          "/api/firmware/latest" [("device_type", "")] :=
  latest_route_missing_device_type
    (ServerWorld.mk (some "raw")
      (some (Catalog.mk [Entry.mk "1.0.0" "dev1" "dev1-v1.0.0.bin" 3 "c" "" 0] "1.0.0")) [])
    [("x", "1")]
    (Catalog.mk [Entry.mk "1.0.0" "dev1" "dev1-v1.0.0.bin" 3 "c" "" 0] "1.0.0")
    rfl (by decide) (by decide)

/-- C7 (corrected): the claim as stated is false for the serving process —
with a present but unparseable metadata document, an authenticated `GET /`
is answered 500 (`internalError500`), not served from a substituted empty
catalog (the same request over an empty parsed catalog gets a 200 page). -/
theorem metadata_load_fallback_counterexample :
    (main_handle_request (ServerWorld.mk (some "\x7b") none [])
        "GET / HTTP/1.1\r\nAuthorization: Basic YWRtaW46YWRtaW4=\r\n\r\n").status = 500 ∧
    main_handle_request (ServerWorld.mk (some "\x7b") none [])
        "GET / HTTP/1.1\r\nAuthorization: Basic YWRtaW46YWRtaW4=\r\n\r\n"
      ≠ main_handle_request (ServerWorld.mk (some "\x7b") (some emptyCatalog) [])
          "GET / HTTP/1.1\r\nAuthorization: Basic YWRtaW46YWRtaW4=\r\n\r\n" := by
  constructor
  · decide
  · decide

/-- C7 (amended): the upload tool's catalog load substitutes the empty
catalog with `latest_version = "0.0.0"` for a missing or corrupt document
and proceeds; the serving process's handlers that parse the document (here
`GET /` of main.py) instead surface a 500 response when it is missing or
unparseable. -/
theorem metadata_load_fallback (w : ServerWorld) (request : String)
    (p : RequestData) (hp : parse_request request = some p) (hpath : p.path = "/")
    (hauth : check_auth p.headers = true) (hw : w.metaParsed = none) :
    loadMetadata MetaDoc.missing = emptyCatalog ∧
    loadMetadata MetaDoc.corrupt = emptyCatalog ∧
    main_handle_request w request = internalError500 := by
  refine ⟨rfl, rfl, ?_⟩
  simp only [main_handle_request, hp]
  rw [if_neg (by rw [hauth]; simp)]
  rw [hpath]
  simp only [main_dispatch, hw, if_true]

theorem metadata_load_fallback_witness :
    loadMetadata MetaDoc.missing = emptyCatalog ∧
    loadMetadata MetaDoc.corrupt = emptyCatalog ∧
    main_handle_request (ServerWorld.mk (some "\x7b") none [])
        "GET / HTTP/1.1\r\nAuthorization: Basic YWRtaW46YWRtaW4=\r\n\r\n"
      = internalError500 :=
  metadata_load_fallback (ServerWorld.mk (some "\x7b") none [])
    "GET / HTTP/1.1\r\nAuthorization: Basic YWRtaW46YWRtaW4=\r\n\r\n"
    (RequestData.mk "GET" "/"
      [("authorization", "Basic YWRtaW46YWRtaW4=")] [])
    (by decide) (by decide) (by decide) rfl

theorem checksum_matches_hardware_crc_witness :
    calculate_stm32_crc32 [72, 101, 108] = specCrcDigest [72, 101, 108] ∧
    (calculate_stm32_crc32 [72, 101, 108]).length = 8 ∧
    ('6'.isDigit = true ∨ ('a' ≤ '6' ∧ '6' ≤ 'f')) :=
  ⟨(checksum_matches_hardware_crc [72, 101, 108]).1,
   (checksum_matches_hardware_crc [72, 101, 108]).2.1,
   (checksum_matches_hardware_crc [72, 101, 108]).2.2 '6' (by decide)⟩

end Fota
